import Mathlib

/-!
Shallow embedding of the OSDRP link-state routing simulation
(`src/python/osdrp_simulation.py` and `src/python/performance_comparison.py`).

Node identifiers are strings ("R0", "R1", …).  Link costs and timestamps
are exact rationals (the Python source uses floats; all claim-relevant
arithmetic is finite decimal arithmetic, modelled exactly over `ℚ`, with
Python's `round` — banker's rounding — modelled by `roundHalfEven`).

The per-router `networkx.Graph` topology database is modelled as a node
list (insertion order preserved, each node carrying its optional `seq`
attribute) together with an undirected edge list (insertion order
preserved, each edge carrying its `cost` attribute), mirroring how
`networkx` stores and iterates nodes, adjacency and edge attributes.
-/

namespace OSDRP

abbrev NodeId := String

/-! ### Kernel-computable rational arithmetic

Mathlib's `Rat.add`, `Rat.sub`, `Rat.mul`, `Rat.inv` are `@[irreducible]`,
so terms built from them cannot be evaluated by `decide`.  The wrappers
below implement the same operations through `mkRat` / `Rat.divInt`
(which do reduce) and are proved equal to the standard operations, so
the executable definitions of the embedding can be run on concrete
inputs inside proofs while every general theorem may freely rewrite to
the standard `+`, `-`, `*`, `/`, `⌊⌋`. -/

/-- Kernel-computable `a + b` on `ℚ`. -/
def qadd (a b : ℚ) : ℚ := mkRat (a.num * b.den + b.num * a.den) (a.den * b.den)

/-- Kernel-computable `a - b` on `ℚ`. -/
def qsub (a b : ℚ) : ℚ := mkRat (a.num * b.den - b.num * a.den) (a.den * b.den)

/-- Kernel-computable `a * b` on `ℚ`. -/
def qmul (a b : ℚ) : ℚ := mkRat (a.num * b.num) (a.den * b.den)

/-- Kernel-computable `a / b` on `ℚ`. -/
def qdiv (a b : ℚ) : ℚ := Rat.divInt (a.num * b.den) (a.den * b.num)

/-- Kernel-computable `⌊q⌋` on `ℚ`. -/
def qfloor (q : ℚ) : ℤ := q.num / (q.den : ℤ)

theorem qadd_eq (a b : ℚ) : qadd a b = a + b := (Rat.add_def' a b).symm

theorem qsub_eq (a b : ℚ) : qsub a b = a - b := (Rat.sub_def' a b).symm

theorem qmul_eq (a b : ℚ) : qmul a b = a * b := by
  rw [Rat.mul_def, Rat.normalize_eq_mkRat]; rfl

theorem qdiv_eq (a b : ℚ) : qdiv a b = a / b := by
  rw [Rat.div_def']; rfl

theorem qfloor_eq (q : ℚ) : qfloor q = ⌊q⌋ := Rat.floor_def.symm

/-- An undirected edge with its `cost` attribute, stored in the orientation
in which `add_edge` inserted it (as `networkx` does). -/
abbrev Edge := NodeId × NodeId × ℚ

/-- The per-router topology database: `networkx.Graph` with a `seq` node
attribute and a `cost` edge attribute. -/
structure Graph where
  nodes : List (NodeId × Option Nat)
  edges : List Edge
deriving Repr, DecidableEq

/-- Model of `u in graph` (node membership). -/
def hasNode (g : Graph) (u : NodeId) : Bool :=
  g.nodes.any (fun nd => decide (nd.1 = u))

/-- The stored `seq` attribute of a node, when the node is present and the
attribute has been set. -/
def nodeSeqOpt (g : Graph) (u : NodeId) : Option Nat :=
  (g.nodes.find? (fun nd => decide (nd.1 = u))).bind Prod.snd

/-- Model of `graph.nodes[u].get('seq', 0)`. -/
def nodeSeq (g : Graph) (u : NodeId) : Nat :=
  (nodeSeqOpt g u).getD 0

/-- Two unordered node pairs denote the same undirected edge. -/
def sameEdge (a b : NodeId × NodeId) : Bool :=
  decide ((a.1 = b.1 ∧ a.2 = b.2) ∨ (a.1 = b.2 ∧ a.2 = b.1))

/-- Undirected edge membership (`graph.has_edge(u, v)`). -/
def hasEdge (g : Graph) (u v : NodeId) : Bool :=
  g.edges.any (fun e => sameEdge (e.1, e.2.1) (u, v))

/-- Add a node with no attribute if absent (what `add_edge` does for
endpoints), leaving an existing node and its attributes alone. -/
def ensureNode (g : Graph) (u : NodeId) : Graph :=
  if hasNode g u then g else { g with nodes := g.nodes ++ [(u, none)] }

/-- Model of `graph.add_node(u, seq=s)`: upsert the node, setting its `seq`
attribute, preserving its position in the node order. -/
def addNodeSeq (g : Graph) (u : NodeId) (s : Nat) : Graph :=
  if hasNode g u then
    { g with nodes := g.nodes.map (fun nd => if nd.1 = u then (nd.1, some s) else nd) }
  else
    { g with nodes := g.nodes ++ [(u, some s)] }

/-- Model of `graph.add_edge(u, v, cost=c)`: endpoints are created if absent; an
existing undirected edge has its cost updated in place, otherwise the
edge is appended. -/
def addEdge (g : Graph) (u v : NodeId) (c : ℚ) : Graph :=
  let g1 := ensureNode (ensureNode g u) v
  if hasEdge g1 u v then
    { g1 with edges := g1.edges.map (fun e => if sameEdge (e.1, e.2.1) (u, v) then (e.1, e.2.1, c) else e) }
  else
    { g1 with edges := g1.edges ++ [(u, v, c)] }

/-- Model of `list(graph.edges(u))`: the incident edges of `u` as pairs with `u`
first, in edge-storage order. -/
def edgesFrom (g : Graph) (u : NodeId) : List (NodeId × NodeId) :=
  g.edges.filterMap (fun e =>
    if e.1 = u then some (u, e.2.1)
    else if e.2.1 = u then some (u, e.1)
    else none)

/-- Model of `graph.remove_edges_from(ps)`: drop every stored edge matching (as an
undirected pair) some pair of `ps`; nodes are untouched. -/
def removeEdgesFrom (g : Graph) (ps : List (NodeId × NodeId)) : Graph :=
  { g with edges := g.edges.filter (fun e => !(ps.any (fun pr => sameEdge pr (e.1, e.2.1)))) }

/-- The adjacency of `u` with edge costs, in edge-storage order
(`networkx` iterates a node's adjacency in insertion order). -/
def neighborsWithCost (g : Graph) (u : NodeId) : List (NodeId × ℚ) :=
  g.edges.filterMap (fun e =>
    if e.1 = u then some (e.2.1, e.2.2)
    else if e.2.1 = u then some (e.1, e.2.2)
    else none)

/-! ### Advertisements and the simulated integrity tag -/

/-- The `lsu['data']` payload: `{source_id, sequence_number, links}` where
`links` maps each advertised neighbor to `{'cost': c}` (a Python dict:
keys are distinct, iteration is insertion order). -/
structure LSUData where
  source_id : NodeId
  sequence_number : Nat
  links : List (NodeId × ℚ)
deriving Repr, DecidableEq

/-- A full LSU message `{data, signature}`. -/
structure LSU where
  data : LSUData
  signature : Nat
deriving Repr, DecidableEq

/-- Deterministic rendering of the payload, standing in for Python's
`str(message)`. -/
def encodeLSUData (m : LSUData) : String :=
  m.source_id ++ "#" ++ toString m.sequence_number ++ "#" ++
    String.join (m.links.map (fun nc =>
      nc.1 ++ ":" ++ toString nc.2.num ++ "/" ++ toString nc.2.den ++ ";"))

/-- Deterministic string hash, standing in for Python's builtin `hash`. -/
def strHash (s : String) : Nat :=
  s.data.foldl (fun h c => h * 31 + c.toNat) 5381

/-- Model of `sign_message(message, source_id) = hash(str(message) + PUBLIC_KEYS[source_id])`;
the key table `PUBLIC_KEYS` (loaded from `config.json`) is a parameter. -/
def sign_message (keys : NodeId → String) (m : LSUData) (sid : NodeId) : Nat :=
  strHash (encodeLSUData m ++ keys sid)

/-- Model of `verify_signature(message, signature, source_id)`. -/
def verify_signature (keys : NodeId → String) (m : LSUData) (sig : Nat) (sid : NodeId) : Bool :=
  decide (sig = sign_message keys m sid)

/-! ### Rounding (Python `round`: banker's rounding) -/

/-- Python's `round` to an integer: round half to even. -/
def roundHalfEven (q : ℚ) : ℤ :=
  let n := qfloor q
  let f := qsub q (n : ℚ)
  if f < mkRat 1 2 then n
  else if mkRat 1 2 < f then n + 1
  else if n % 2 = 0 then n else n + 1

/-- Python's `round(q, 2)`. -/
def roundTo2 (q : ℚ) : ℚ :=
  qdiv (roundHalfEven (qmul q 100) : ℚ) 100

/-! ### Link cost models -/

/-- The value of the local variable `cost` in
`Router.calculate_link_cost`, the OSDRP dynamic metric, with the jitter
sample (`random.uniform(-2, 2)`) made an explicit argument so the
randomness source is injectable:
`w1 * ((base_latency + jitter) / 50) + w2 * (1 / (bandwidth / 200 + 0.01))`. -/
def calculate_link_cost_raw (w1 w2 base_latency bandwidth jitter : ℚ) : ℚ :=
  let latency := qadd base_latency jitter
  let normalized_latency := qdiv latency 50
  let normalized_bandwidth := qdiv bandwidth 200
  qadd (qmul w1 normalized_latency) (qmul w2 (qdiv 1 (qadd normalized_bandwidth (mkRat 1 100))))

/-- Rewrites `calculate_link_cost_raw` with the standard field operations:
`w1 * ((base_latency + jitter) / 50) + w2 * (1 / (bandwidth / 200 + 1/100))`. -/
theorem calculate_link_cost_raw_eq (w1 w2 base_latency bandwidth jitter : ℚ) :
    calculate_link_cost_raw w1 w2 base_latency bandwidth jitter =
      w1 * ((base_latency + jitter) / 50) + w2 * (1 / (bandwidth / 200 + 1/100)) := by
  unfold calculate_link_cost_raw
  rw [qadd_eq, qmul_eq, qmul_eq, qdiv_eq, qdiv_eq, qdiv_eq, qadd_eq, qadd_eq]
  norm_num [Rat.mkRat_eq_divInt, Rat.divInt_eq_div]

/-- Model of `Router.calculate_link_cost`: the dynamic metric, rounded to two
decimals as the source returns it. -/
def calculate_link_cost (w1 w2 base_latency bandwidth jitter : ℚ) : ℚ :=
  roundTo2 (calculate_link_cost_raw w1 w2 base_latency bandwidth jitter)

/-- Model of `OSPFRouter.calculate_link_cost` from `performance_comparison.py`:
`max(1, round(1000 / bandwidth))`. -/
def OSPF_calculate_link_cost (bandwidth : ℚ) : ℤ :=
  max 1 (roundHalfEven (qdiv 1000 bandwidth))

/-! ### Router state -/

/-- Outcome of `Router.process_lsu`.  The source returns `True` on
acceptance and `False` in the three rejection branches; the rejection
branches are distinguished here (as they are by the source's log
messages) to state the spec's outcome taxonomy. -/
inductive Outcome where
  | accepted
  | stale
  | invalidTag
  | rateLimited
deriving Repr, DecidableEq

/-- One routing table entry, as `calculate_routes` stores it. -/
structure RouteEntry where
  next_hop : NodeId
  total_cost : ℚ
  path : List NodeId
  backup_path : Option (List NodeId)
  backup_cost : Option ℚ
deriving Repr, DecidableEq

/-- Router state.  The shared base graph `self.graph` and the metric
weights `self.w1`, `self.w2` are used only by `create_lsu` /
`calculate_link_cost`, which are embedded as standalone functions, so
they are not carried here. -/
structure Router where
  id : NodeId
  topology : Graph
  sequence_number : Nat
  routing_table : List (NodeId × RouteEntry)
  lsu_timestamps : List ℚ
  lsu_rate_limit : Nat
  lsu_window : ℚ
deriving Repr, DecidableEq

/-- Model of `Router.__init__`: empty topology, sequence number 0, empty routing
table, empty rate-limiter window, `lsu_rate_limit = 10`, `lsu_window = 1`. -/
def Router.init (router_id : NodeId) : Router :=
  { id := router_id
    topology := { nodes := [], edges := [] }
    sequence_number := 0
    routing_table := []
    lsu_timestamps := []
    lsu_rate_limit := 10
    lsu_window := 1 }

/-- Model of `Router.process_lsu`, with the wall clock (`time.time()`) an explicit
argument.  Returns the outcome together with the updated router. -/
def process_lsu (keys : NodeId → String) (r : Router) (lsu : LSU) (current_time : ℚ) :
    Outcome × Router :=
  let ts := r.lsu_timestamps.filter (fun t => decide (qsub current_time t ≤ r.lsu_window))
  if r.lsu_rate_limit ≤ ts.length then
    (Outcome.rateLimited, { r with lsu_timestamps := ts })
  else
    let data := lsu.data
    let source_id := data.source_id
    if verify_signature keys data lsu.signature source_id = false then
      (Outcome.invalidTag, { r with lsu_timestamps := ts })
    else if hasNode r.topology source_id = true ∧ data.sequence_number ≤ nodeSeq r.topology source_id then
      (Outcome.stale, { r with lsu_timestamps := ts })
    else
      let g1 := addNodeSeq r.topology source_id data.sequence_number
      let old_edges := edgesFrom g1 source_id
      let g2 := removeEdgesFrom g1 old_edges
      let g3 := data.links.foldl (fun g nc => addEdge g source_id nc.1 nc.2) g2
      (Outcome.accepted, { r with lsu_timestamps := ts ++ [current_time], topology := g3 })

/-! ### Dijkstra (`networkx.dijkstra_path` / `dijkstra_path_length`)

A fuel-bounded Dijkstra over the embedded graph.  Frontier entries are
`(cost, reversed path)`; `pqInsert` keeps the frontier sorted by cost
with FIFO order among equal costs, matching the `(dist, counter, node)`
heap ordering `networkx` uses, so tie-breaking is deterministic. -/

/-- Insert a frontier entry keeping the frontier sorted by cost, after
existing entries of equal cost. -/
def pqInsert (e : ℚ × List NodeId) : List (ℚ × List NodeId) → List (ℚ × List NodeId)
  | [] => [e]
  | x :: xs => if x.1 ≤ e.1 then x :: pqInsert e xs else e :: x :: xs

/-- Main Dijkstra loop.  `none` means no path (fuel is chosen large
enough in `dijkstra` that exhaustion cannot occur before the frontier
empties). -/
def dijkstraLoop (g : Graph) (tgt : NodeId) :
    Nat → List NodeId → List (ℚ × List NodeId) → Option (List NodeId × ℚ)
  | 0, _, _ => none
  | _ + 1, _, [] => none
  | fuel + 1, visited, (c, p) :: rest =>
    let u := p.headD ""
    if visited.contains u then
      dijkstraLoop g tgt fuel visited rest
    else if u = tgt then
      some (p.reverse, c)
    else
      let pushes := (neighborsWithCost g u).map (fun vw => (qadd c vw.2, vw.1 :: p))
      dijkstraLoop g tgt fuel (u :: visited) (pushes.foldl (fun f e => pqInsert e f) rest)

/-- Model of `nx.dijkstra_path` and `nx.dijkstra_path_length` together:
`some (path, length)` when a path exists, `none` for `NetworkXNoPath`.
(`calculate_routes` only calls it with both endpoints present.) -/
def dijkstra (g : Graph) (src tgt : NodeId) : Option (List NodeId × ℚ) :=
  if hasNode g src && hasNode g tgt then
    dijkstraLoop g tgt ((g.nodes.length + 1) * (2 * g.edges.length + 2) + 1) [] [(0, [src])]
  else
    none

/-- Model of `list(zip(path, path[1:]))`. -/
def pathEdges (p : List NodeId) : List (NodeId × NodeId) :=
  p.zip p.tail

/-- Python dict assignment `table[k] = v`: update in place or append. -/
def rtInsert (tbl : List (NodeId × RouteEntry)) (k : NodeId) (v : RouteEntry) :
    List (NodeId × RouteEntry) :=
  match tbl with
  | [] => [(k, v)]
  | x :: xs => if x.1 = k then (k, v) :: xs else x :: rtInsert xs k v

/-- The routing table entry `Router.calculate_routes` builds for one
destination, given the primary path and cost Dijkstra returned: the
backup is a second Dijkstra run on a copy of the database with every
primary-path edge removed, and `backup_cost` mirrors the source's
`round(backup_cost, 2) if backup_cost else None` (Python truthiness
sends both `None` and `0` to `None`). -/
def mkRouteEntry (g : Graph) (selfId target_node : NodeId)
    (primary_path : List NodeId) (primary_cost : ℚ) : RouteEntry :=
  let path_edges := pathEdges primary_path
  let topology_copy := removeEdgesFrom g path_edges
  let backup := dijkstra topology_copy selfId target_node
  { next_hop := primary_path.getD 1 ""
    total_cost := roundTo2 primary_cost
    path := primary_path
    backup_path := backup.map Prod.fst
    backup_cost :=
      match backup.map Prod.snd with
      | none => none
      | some d => if d = 0 then none else some (roundTo2 d) }

/-- The table-building loop of `Router.calculate_routes`, starting from
the freshly cleared table. -/
def compute_table (g : Graph) (selfId : NodeId) : List (NodeId × RouteEntry) :=
  (g.nodes.map Prod.fst).foldl (fun table target_node =>
    if target_node = selfId then table
    else
      match dijkstra g selfId target_node with
      | none => table
      | some (primary_path, primary_cost) =>
        rtInsert table target_node
          (mkRouteEntry g selfId target_node primary_path primary_cost)) []

/-- Model of `Router.calculate_routes`: returns immediately (table untouched) when
the router's own id is not a node of its topology; otherwise rebuilds
the routing table wholesale.  The `backup_cost` field mirrors the
source's `round(backup_cost, 2) if backup_cost else None` — Python
truthiness sends both `None` and `0` to `None`. -/
def calculate_routes (r : Router) : Router :=
  if hasNode r.topology r.id then
    { r with routing_table := compute_table r.topology r.id }
  else
    r

/-- Iterates `process_lsu` over a sequence of (message, arrival time)
deliveries, discarding the outcomes — the state a router reaches after
any sequence of `receive()` calls. -/
def runCalls (keys : NodeId → String) (r : Router) (calls : List (LSU × ℚ)) : Router :=
  calls.foldl (fun st c => (process_lsu keys st c.1 c.2).2) r

/-! ### Concrete scenarios used by witnesses and counterexamples -/

/-- A concrete key table (each router's key material is its own id). -/
def demoKeys : NodeId → String := fun s => s

/-- Scenario A: `R1`'s advertisement on the path topology `R0–R1–R2`,
links `{R0: 1, R2: 1}`, validly signed. -/
def lsuR1 : LSU :=
  let d : LSUData := { source_id := "R1", sequence_number := 1, links := [("R0", 1), ("R2", 1)] }
  { data := d, signature := sign_message demoKeys d "R1" }

/-- Scenario A: `R2`'s advertisement, links `{R1: 1}`, validly signed. -/
def lsuR2 : LSU :=
  let d : LSUData := { source_id := "R2", sequence_number := 1, links := [("R1", 1)] }
  { data := d, signature := sign_message demoKeys d "R2" }

/-- Router `R0` after receiving `R1`'s and then `R2`'s advertisements. -/
def scenarioA_converged : Router :=
  (process_lsu demoKeys (process_lsu demoKeys (Router.init "R0") lsuR1 0).2 lsuR2 0).2

/-- Router `R0` after computing routes in scenario A. -/
def scenarioA_final : Router := calculate_routes scenarioA_converged

/-- A topology with two edge-disjoint zero-cost `R0`–`R1` paths
(`R0–R2–R1` and `R0–R3–R1`). -/
def zeroCostTopology : Graph :=
  { nodes := [("R0", none), ("R1", none), ("R2", none), ("R3", none)]
    edges := [("R0", "R2", 0), ("R2", "R1", 0), ("R0", "R3", 0), ("R3", "R1", 0)] }

/-- The entry `compute_table zeroCostTopology "R0"` produces for `R1`:
a present backup path with an absent backup cost. -/
def zeroCostEntry : RouteEntry :=
  { next_hop := "R2", total_cost := 0, path := ["R0", "R2", "R1"]
    backup_path := some ["R0", "R3", "R1"], backup_cost := none }

/-- A square topology `R0–R1–R2` (costs 1) and `R0–R3–R2` (costs 2). -/
def squareTopology : Graph :=
  { nodes := [("R0", none), ("R1", none), ("R2", none), ("R3", none)]
    edges := [("R0", "R1", 1), ("R1", "R2", 1), ("R0", "R3", 2), ("R3", "R2", 2)] }

/-- The entry `compute_table squareTopology "R0"` produces for `R2`. -/
def squareEntryR2 : RouteEntry :=
  { next_hop := "R1", total_cost := 2, path := ["R0", "R1", "R2"]
    backup_path := some ["R0", "R3", "R2"], backup_cost := some 4 }

/-- Advertisement from source `T` listing neighbor `A`. -/
def lsuFromT : LSU :=
  let d : LSUData := { source_id := "T", sequence_number := 1, links := [("A", 1)] }
  { data := d, signature := sign_message demoKeys d "T" }

/-- Advertisement from source `A` with an empty link set. -/
def lsuFromA : LSU :=
  let d : LSUData := { source_id := "A", sequence_number := 1, links := [] }
  { data := d, signature := sign_message demoKeys d "A" }

/-- A router whose rate-limiter window already holds ten timestamps. -/
def busyRouter : Router :=
  { Router.init "R0" with lsu_timestamps := [0, 0, 0, 0, 0, 0, 0, 0, 0, 0] }

/-- A router whose own id is absent from its topology but whose routing
table is populated. -/
def orphanRouter : Router :=
  { Router.init "RX" with
    topology := { nodes := [("R1", some 1), ("R2", none)], edges := [("R1", "R2", 1)] }
    routing_table := [("R2", { next_hop := "R1", total_cost := 2, path := ["RX", "R1", "R2"]
                               backup_path := none, backup_cost := none })] }

/-! ### Claims -/

/-- C10: if a router's own identifier is not a node of its topology
database, `calculate_routes` leaves the router — in particular its
routing table — unchanged. -/
theorem claimC10 (r : Router) (h : hasNode r.topology r.id = false) :
    calculate_routes r = r := by
  unfold calculate_routes
  simp [h]

/-- Witness for C10: a router with a populated routing table and an id
absent from its topology is returned unchanged. -/
theorem claimC10_witness :
    hasNode orphanRouter.topology orphanRouter.id = false ∧
      calculate_routes orphanRouter = orphanRouter :=
  ⟨by decide, claimC10 orphanRouter (by decide)⟩

/-- C7: route computation is deterministic — it reads only the topology
database (and the router's id), so running `calculate_routes` a second
time from the state the first run produced yields the identical routing
table. -/
theorem claimC7 (r : Router) :
    (calculate_routes (calculate_routes r)).routing_table = (calculate_routes r).routing_table := by
  unfold calculate_routes
  by_cases h : hasNode r.topology r.id = true
  · simp [h]
  · simp [h]

/-- C8: on the path topology `R0–R1–R2` with both costs 1, `R0` accepts
both advertisements, its database holds exactly the two advertised
links, and its routing table entry for `R2` is
`primaryPath = [R0,R1,R2]`, `totalCost = 2`, `nextHop = R1`, with no
backup path and no backup cost. -/
theorem claimC8 :
    (process_lsu demoKeys (Router.init "R0") lsuR1 0).1 = Outcome.accepted ∧
    (process_lsu demoKeys (process_lsu demoKeys (Router.init "R0") lsuR1 0).2 lsuR2 0).1
        = Outcome.accepted ∧
    scenarioA_converged.topology.edges = [("R1", "R0", 1), ("R2", "R1", 1)] ∧
    scenarioA_final.routing_table.find? (fun x => decide (x.1 = "R2"))
        = some ("R2", { next_hop := "R1", total_cost := 2, path := ["R0", "R1", "R2"]
                        backup_path := none, backup_cost := none }) := by
  decide

/-- C3: when the rate-limiter window (after eviction) already holds at
least `lsu_rate_limit` timestamps, `process_lsu` returns `RateLimited`
for every advertisement whatsoever — the rate check precedes the
integrity and freshness checks — and the topology database and routing
table are unchanged. -/
theorem claimC3 (keys : NodeId → String) (r : Router) (lsu : LSU) (t : ℚ)
    (h : r.lsu_rate_limit ≤
      (r.lsu_timestamps.filter (fun x => decide (qsub t x ≤ r.lsu_window))).length) :
    (process_lsu keys r lsu t).1 = Outcome.rateLimited ∧
    (process_lsu keys r lsu t).2.topology = r.topology ∧
    (process_lsu keys r lsu t).2.routing_table = r.routing_table := by
  unfold process_lsu
  rw [if_pos h]
  exact ⟨rfl, rfl, rfl⟩

/-- Witness for C3: a router holding ten fresh timestamps rate-limits a
perfectly valid, fresh advertisement and keeps its state. -/
theorem claimC3_witness :
    busyRouter.lsu_rate_limit ≤
      (busyRouter.lsu_timestamps.filter
        (fun x => decide (qsub (0 : ℚ) x ≤ busyRouter.lsu_window))).length ∧
    (process_lsu demoKeys busyRouter lsuR1 0).1 = Outcome.rateLimited ∧
    (process_lsu demoKeys busyRouter lsuR1 0).2.topology = busyRouter.topology ∧
    (process_lsu demoKeys busyRouter lsuR1 0).2.routing_table = busyRouter.routing_table :=
  ⟨by decide, claimC3 demoKeys busyRouter lsuR1 0 (by decide)⟩

/-- A node with a stored `seq` attribute is present in the graph. -/
lemma hasNode_of_nodeSeqOpt {g : Graph} {u : NodeId} {s : Nat}
    (h : nodeSeqOpt g u = some s) : hasNode g u = true := by
  unfold nodeSeqOpt at h
  unfold hasNode
  rcases ho : g.nodes.find? (fun nd => decide (nd.1 = u)) with _ | nd
  · rw [ho] at h; simp at h
  · have hmem := List.mem_of_find?_eq_some ho
    have hpred := List.find?_some ho
    simp only [List.any_eq_true]
    exact ⟨nd, hmem, hpred⟩

/-- The reader `nodeSeq` agrees with a stored `seq` attribute. -/
lemma nodeSeq_of_nodeSeqOpt {g : Graph} {u : NodeId} {s : Nat}
    (h : nodeSeqOpt g u = some s) : nodeSeq g u = s := by
  unfold nodeSeq
  rw [h]
  rfl

/-- C2: an advertisement from a source whose stored sequence number is
at least the advertisement's, arriving with the rate limiter below its
limit and a valid integrity tag, is answered `Stale` and leaves the
topology database and routing table unchanged. -/
theorem claimC2 (keys : NodeId → String) (r : Router) (lsu : LSU) (t : ℚ) (s : Nat)
    (hrate : (r.lsu_timestamps.filter (fun x => decide (qsub t x ≤ r.lsu_window))).length
      < r.lsu_rate_limit)
    (hsig : verify_signature keys lsu.data lsu.signature lsu.data.source_id = true)
    (hstored : nodeSeqOpt r.topology lsu.data.source_id = some s)
    (hseq : lsu.data.sequence_number ≤ s) :
    (process_lsu keys r lsu t).1 = Outcome.stale ∧
    (process_lsu keys r lsu t).2.topology = r.topology ∧
    (process_lsu keys r lsu t).2.routing_table = r.routing_table := by
  have hnode := hasNode_of_nodeSeqOpt hstored
  have hseq' : lsu.data.sequence_number ≤ nodeSeq r.topology lsu.data.source_id := by
    rw [nodeSeq_of_nodeSeqOpt hstored]; exact hseq
  have hrate' : ¬ r.lsu_rate_limit ≤
      (r.lsu_timestamps.filter (fun x => decide (qsub t x ≤ r.lsu_window))).length :=
    Nat.not_le.mpr hrate
  have hsig' : ¬ verify_signature keys lsu.data lsu.signature lsu.data.source_id = false := by
    rw [hsig]; decide
  unfold process_lsu
  rw [if_neg hrate', if_neg hsig', if_pos ⟨hnode, hseq'⟩]
  exact ⟨rfl, rfl, rfl⟩

/-- Witness for C2: after accepting `R1`'s sequence-1 advertisement, a
replay of the same advertisement is stale and changes nothing. -/
theorem claimC2_witness :
    ((((process_lsu demoKeys (Router.init "R0") lsuR1 0).2).lsu_timestamps.filter
        (fun x => decide (qsub (0 : ℚ) x ≤ ((process_lsu demoKeys (Router.init "R0") lsuR1 0).2).lsu_window))).length
      < ((process_lsu demoKeys (Router.init "R0") lsuR1 0).2).lsu_rate_limit) ∧
    (process_lsu demoKeys ((process_lsu demoKeys (Router.init "R0") lsuR1 0).2) lsuR1 0).1
      = Outcome.stale ∧
    (process_lsu demoKeys ((process_lsu demoKeys (Router.init "R0") lsuR1 0).2) lsuR1 0).2.topology
      = ((process_lsu demoKeys (Router.init "R0") lsuR1 0).2).topology ∧
    (process_lsu demoKeys ((process_lsu demoKeys (Router.init "R0") lsuR1 0).2) lsuR1 0).2.routing_table
      = ((process_lsu demoKeys (Router.init "R0") lsuR1 0).2).routing_table :=
  ⟨by decide,
    (claimC2 demoKeys ((process_lsu demoKeys (Router.init "R0") lsuR1 0).2) lsuR1 0 1
      (by decide) (by decide) (by decide) (by decide)).1,
    (claimC2 demoKeys ((process_lsu demoKeys (Router.init "R0") lsuR1 0).2) lsuR1 0 1
      (by decide) (by decide) (by decide) (by decide)).2.1,
    (claimC2 demoKeys ((process_lsu demoKeys (Router.init "R0") lsuR1 0).2) lsuR1 0 1
      (by decide) (by decide) (by decide) (by decide)).2.2⟩

/-- C6 counterexample: at weights `w1 = w2 = 1`, a link with positive
bandwidth 20000 and positive base latency 1, and the in-range jitter
value −2, the dynamic cost formula — and the rounded value the code
returns — is negative. -/
theorem claimC6_counterexample :
    (0 : ℚ) < 1 ∧ (0 : ℚ) < 20000 ∧ (-2 : ℚ) ≤ -2 ∧ (-2 : ℚ) ≤ 2 ∧
    calculate_link_cost_raw 1 1 1 20000 (-2) < 0 ∧
    calculate_link_cost 1 1 1 20000 (-2) < 0 := by
  refine ⟨by norm_num, by norm_num, le_refl _, by norm_num, ?_, ?_⟩
  · show calculate_link_cost_raw 1 1 1 20000 (-2) < 0
    decide
  · show calculate_link_cost 1 1 1 20000 (-2) < 0
    decide

/-- C6 (amended): the static variant is always at least 1; the dynamic
variant is strictly positive whenever the jittered latency
`base_latency + jitter` is nonnegative (given `w1 ≥ 0`, `w2 > 0` and a
positive bandwidth) — but not for every jitter value in the symmetric
range, as the counterexample shows. -/
theorem claimC6 (w1 w2 base_latency bandwidth jitter : ℚ)
    (hw1 : 0 ≤ w1) (hw2 : 0 < w2) (hbw : 0 < bandwidth)
    (hlat : 0 ≤ base_latency + jitter) :
    0 < calculate_link_cost_raw w1 w2 base_latency bandwidth jitter ∧
    1 ≤ OSPF_calculate_link_cost bandwidth := by
  constructor
  · rw [calculate_link_cost_raw_eq]
    have h1 : 0 ≤ w1 * ((base_latency + jitter) / 50) :=
      mul_nonneg hw1 (div_nonneg hlat (by norm_num))
    have hd : 0 < bandwidth / 200 + 1 / 100 :=
      add_pos (div_pos hbw (by norm_num)) (by norm_num)
    have h2 : 0 < w2 * (1 / (bandwidth / 200 + 1 / 100)) :=
      mul_pos hw2 (div_pos one_pos hd)
    linarith
  · exact le_max_left 1 _

/-- Witness for C6 (amended): `w1 = w2 = 1`, base latency 2, bandwidth
100, jitter −2 gives a positive dynamic cost, and the static cost of a
100-unit link is at least 1. -/
theorem claimC6_witness :
    (0 : ℚ) ≤ 1 ∧ (0 : ℚ) < 1 ∧ (0 : ℚ) < 100 ∧ (0 : ℚ) ≤ 2 + (-2) ∧
    (0 < calculate_link_cost_raw 1 1 2 100 (-2) ∧
      1 ≤ OSPF_calculate_link_cost 100) :=
  ⟨by norm_num, by norm_num, by norm_num, by norm_num,
    claimC6 1 1 2 100 (-2) (by norm_num) (by norm_num) (by norm_num) (by norm_num)⟩

/-- The operation `process_lsu` never changes the configured rate limit. -/
lemma process_lsu_rate_limit_eq (keys : NodeId → String) (r : Router) (lsu : LSU) (t : ℚ) :
    (process_lsu keys r lsu t).2.lsu_rate_limit = r.lsu_rate_limit := by
  dsimp only [process_lsu]
  split
  · rfl
  · split
    · rfl
    · split
      · rfl
      · rfl

/-- Any single `process_lsu` call keeps the timestamp store within the
rate limit: eviction only shrinks it, and the accept path appends one
timestamp only after checking the evicted window is strictly below the
limit. -/
lemma process_lsu_timestamps_bound (keys : NodeId → String) (r : Router) (lsu : LSU) (t : ℚ)
    (h : r.lsu_timestamps.length ≤ r.lsu_rate_limit) :
    (process_lsu keys r lsu t).2.lsu_timestamps.length ≤ r.lsu_rate_limit := by
  have hf : (r.lsu_timestamps.filter (fun x => decide (qsub t x ≤ r.lsu_window))).length
      ≤ r.lsu_timestamps.length := List.length_filter_le _ _
  dsimp only [process_lsu]
  split
  · exact le_trans hf h
  · next h1 =>
    split
    · exact le_trans hf h
    · split
      · exact le_trans hf h
      · have h2 : (r.lsu_timestamps.filter
            (fun x => decide (qsub t x ≤ r.lsu_window))).length < r.lsu_rate_limit :=
          Nat.not_le.mp h1
        simpa using h2

/-- A rejected advertisement records no timestamp: on every non-accept
outcome the stored timestamps only shrink (by eviction). -/
lemma process_lsu_not_accepted_sublist (keys : NodeId → String) (r : Router) (lsu : LSU) (t : ℚ) :
    (process_lsu keys r lsu t).1 = Outcome.accepted ∨
      List.Sublist (process_lsu keys r lsu t).2.lsu_timestamps r.lsu_timestamps := by
  dsimp only [process_lsu]
  split
  · exact Or.inr (List.filter_sublist _)
  · split
    · exact Or.inr (List.filter_sublist _)
    · split
      · exact Or.inr (List.filter_sublist _)
      · exact Or.inl rfl

/-- The rate limit is constant across any call sequence. -/
lemma runCalls_rate_limit_eq (keys : NodeId → String) :
    ∀ (calls : List (LSU × ℚ)) (r : Router),
      (runCalls keys r calls).lsu_rate_limit = r.lsu_rate_limit := by
  intro calls
  induction calls with
  | nil => intro r; rfl
  | cons c cs ih =>
    intro r
    show (runCalls keys (process_lsu keys r c.1 c.2).2 cs).lsu_rate_limit = r.lsu_rate_limit
    rw [ih, process_lsu_rate_limit_eq]

/-- The timestamp bound is preserved by any call sequence. -/
lemma runCalls_timestamps_bound (keys : NodeId → String) :
    ∀ (calls : List (LSU × ℚ)) (r : Router),
      r.lsu_timestamps.length ≤ r.lsu_rate_limit →
      (runCalls keys r calls).lsu_timestamps.length ≤ r.lsu_rate_limit := by
  intro calls
  induction calls with
  | nil => intro r h; exact h
  | cons c cs ih =>
    intro r h
    show (runCalls keys (process_lsu keys r c.1 c.2).2 cs).lsu_timestamps.length
        ≤ r.lsu_rate_limit
    have hb : (process_lsu keys r c.1 c.2).2.lsu_timestamps.length
        ≤ (process_lsu keys r c.1 c.2).2.lsu_rate_limit := by
      rw [process_lsu_rate_limit_eq]
      exact process_lsu_timestamps_bound keys r c.1 c.2 h
    have := ih (process_lsu keys r c.1 c.2).2 hb
    rwa [process_lsu_rate_limit_eq] at this

/-- C5: starting from a freshly constructed router, after any sequence
of `receive()` calls the stored acceptance timestamps — in particular
those lying in any window `[a, b]` — never number more than the rate
limit, and every non-accepted call leaves the timestamp store a
sublist of what it was (a timestamp is recorded only on acceptance). -/
theorem claimC5 (keys : NodeId → String) (rid : NodeId) (calls : List (LSU × ℚ)) (a b : ℚ) :
    ((runCalls keys (Router.init rid) calls).lsu_timestamps.filter
        (fun x => decide (a ≤ x ∧ x ≤ b))).length ≤ (Router.init rid).lsu_rate_limit ∧
    (runCalls keys (Router.init rid) calls).lsu_timestamps.length
        ≤ (Router.init rid).lsu_rate_limit ∧
    ∀ (r : Router) (lsu : LSU) (t : ℚ),
      (process_lsu keys r lsu t).1 = Outcome.accepted ∨
        List.Sublist (process_lsu keys r lsu t).2.lsu_timestamps r.lsu_timestamps := by
  have hlen : (runCalls keys (Router.init rid) calls).lsu_timestamps.length
      ≤ (Router.init rid).lsu_rate_limit :=
    runCalls_timestamps_bound keys calls (Router.init rid) (by simp [Router.init])
  refine ⟨le_trans (List.length_filter_le _ _) hlen, hlen, ?_⟩
  intro r lsu t
  exact process_lsu_not_accepted_sublist keys r lsu t

/-- Membership in a Python-dict insertion: the element is an old entry
or the inserted pair. -/
lemma mem_rtInsert {tbl : List (NodeId × RouteEntry)} {k : NodeId} {v : RouteEntry}
    {x : NodeId × RouteEntry} (h : x ∈ rtInsert tbl k v) : x ∈ tbl ∨ x = (k, v) := by
  induction tbl with
  | nil =>
    unfold rtInsert at h
    right
    simpa using h
  | cons y ys ih =>
    unfold rtInsert at h
    by_cases hy : y.1 = k
    · rw [if_pos hy] at h
      rcases List.mem_cons.mp h with hx | hx
      · exact Or.inr hx
      · exact Or.inl (List.mem_cons_of_mem y hx)
    · rw [if_neg hy] at h
      rcases List.mem_cons.mp h with hx | hx
      · exact Or.inl (by rw [hx]; exact List.mem_cons_self y ys)
      · rcases ih hx with hx' | hx'
        · exact Or.inl (List.mem_cons_of_mem y hx')
        · exact Or.inr hx'

/-- Generic invariant for the `compute_table` fold: every table entry
was produced from a successful primary Dijkstra run by `mkRouteEntry`. -/
lemma compute_table_fold_mem (g : Graph) (selfId : NodeId) :
    ∀ (ns : List NodeId) (acc : List (NodeId × RouteEntry)),
      (∀ x ∈ acc, ∃ p pc, dijkstra g selfId x.1 = some (p, pc) ∧
        x.2 = mkRouteEntry g selfId x.1 p pc) →
      ∀ x ∈ ns.foldl (fun table target_node =>
          if target_node = selfId then table
          else
            match dijkstra g selfId target_node with
            | none => table
            | some (primary_path, primary_cost) =>
              rtInsert table target_node
                (mkRouteEntry g selfId target_node primary_path primary_cost)) acc,
        ∃ p pc, dijkstra g selfId x.1 = some (p, pc) ∧
          x.2 = mkRouteEntry g selfId x.1 p pc := by
  intro ns
  induction ns with
  | nil => intro acc hacc; exact hacc
  | cons n ns ih =>
    intro acc hacc
    simp only [List.foldl_cons]
    apply ih
    intro x hx
    by_cases hn : n = selfId
    · rw [if_pos hn] at hx
      exact hacc x hx
    · rw [if_neg hn] at hx
      cases hd : dijkstra g selfId n with
      | none => rw [hd] at hx; exact hacc x hx
      | some pr =>
        obtain ⟨p, pc⟩ := pr
        rw [hd] at hx
        rcases mem_rtInsert hx with hold | hnew
        · exact hacc x hold
        · rw [hnew]
          exact ⟨p, pc, hd, rfl⟩

/-- Every entry of `compute_table` is an `mkRouteEntry` for a
destination whose primary Dijkstra run succeeded. -/
lemma compute_table_mem {g : Graph} {selfId d : NodeId} {e : RouteEntry}
    (h : (d, e) ∈ compute_table g selfId) :
    ∃ p pc, dijkstra g selfId d = some (p, pc) ∧ e = mkRouteEntry g selfId d p pc := by
  have := compute_table_fold_mem g selfId (g.nodes.map Prod.fst) [] (by intro x hx; cases hx)
    (d, e) h
  exact this

/-- When `mkRouteEntry` has no backup path it also has no backup cost. -/
lemma mkRouteEntry_backup_none (g : Graph) (s tgt : NodeId) (p : List NodeId) (pc : ℚ)
    (hb : (mkRouteEntry g s tgt p pc).backup_path = none) :
    (mkRouteEntry g s tgt p pc).backup_cost = none := by
  unfold mkRouteEntry at hb ⊢
  cases hd : dijkstra (removeEdgesFrom g (pathEdges p)) s tgt with
  | none => simp [hd]
  | some pr => simp [hd] at hb

/-- C9 (amended): a `compute_table` entry never carries a backup cost
without a backup path — if `backupPath` is absent so is `backupCost`;
the converse fails exactly when the computed backup cost is zero, as
the counterexample shows. -/
theorem claimC9 (g : Graph) (s d : NodeId) (e : RouteEntry)
    (h : (d, e) ∈ compute_table g s) (hb : e.backup_path = none) :
    e.backup_cost = none := by
  obtain ⟨p, pc, hd, he⟩ := compute_table_mem h
  rw [he] at hb ⊢
  exact mkRouteEntry_backup_none g s d p pc hb

/-- Witness for C9 (amended): in scenario A the entry for `R2` has no
backup path, and indeed no backup cost. -/
theorem claimC9_witness :
    (("R2", ({ next_hop := "R1", total_cost := 2, path := ["R0", "R1", "R2"]
               backup_path := none, backup_cost := none } : RouteEntry))
        ∈ compute_table scenarioA_converged.topology "R0") ∧
    ({ next_hop := "R1", total_cost := 2, path := ["R0", "R1", "R2"]
       backup_path := none, backup_cost := none } : RouteEntry).backup_cost = none :=
  ⟨by decide,
    claimC9 scenarioA_converged.topology "R0" "R2"
      { next_hop := "R1", total_cost := 2, path := ["R0", "R1", "R2"]
        backup_path := none, backup_cost := none }
      (by decide) (by decide)⟩

/-- C9 counterexample: on `zeroCostTopology` the entry for `R1` carries
a present `backup_path` together with an absent `backup_cost`, because
the computed backup cost is `0`, which Python truthiness conflates with
`None`. -/
theorem claimC9_counterexample :
    (("R1", zeroCostEntry) ∈ compute_table zeroCostTopology "R0") ∧
    zeroCostEntry.backup_path = some ["R0", "R3", "R1"] ∧
    zeroCostEntry.backup_cost = none := by
  refine ⟨by decide, by decide, by decide⟩

/-- C1 counterexample: a router accepts `T`'s advertisement listing the
link `T–A`, then accepts `A`'s advertisement with an empty link set;
the second acceptance removes the edge `T–A`, so the edge set
attributed to the *other* source `T` (which was `[("T","A",1)]`, its
most-recently-accepted link set) is not left intact:
it becomes empty. -/
theorem claimC1_counterexample :
    (process_lsu demoKeys (Router.init "R9") lsuFromT 0).1 = Outcome.accepted ∧
    (process_lsu demoKeys (process_lsu demoKeys (Router.init "R9") lsuFromT 0).2 lsuFromA 0).1
        = Outcome.accepted ∧
    lsuFromT.data.links = [("A", 1)] ∧
    (process_lsu demoKeys (Router.init "R9") lsuFromT 0).2.topology.edges.filter
        (fun e => decide (e.1 = "T" ∨ e.2.1 = "T")) = [("T", "A", 1)] ∧
    (process_lsu demoKeys (process_lsu demoKeys (Router.init "R9") lsuFromT 0).2
        lsuFromA 0).2.topology.edges.filter
        (fun e => decide (e.1 = "T" ∨ e.2.1 = "T")) = [] := by
  decide

/-- Unfolds `sameEdge` to its proposition. -/
lemma sameEdge_true_iff {a b : NodeId × NodeId} :
    sameEdge a b = true ↔ (a.1 = b.1 ∧ a.2 = b.2) ∨ (a.1 = b.2 ∧ a.2 = b.1) := by
  simp [sameEdge]

/-- The predicate `sameEdge` is symmetric. -/
lemma sameEdge_symm (a b : NodeId × NodeId) : sameEdge a b = sameEdge b a := by
  simp only [sameEdge]
  rw [decide_eq_decide]
  constructor
  · rintro (⟨h1, h2⟩ | ⟨h1, h2⟩)
    · exact Or.inl ⟨h1.symm, h2.symm⟩
    · exact Or.inr ⟨h2.symm, h1.symm⟩
  · rintro (⟨h1, h2⟩ | ⟨h1, h2⟩)
    · exact Or.inl ⟨h1.symm, h2.symm⟩
    · exact Or.inr ⟨h2.symm, h1.symm⟩

/-- Swapping one unordered pair does not change `sameEdge`. -/
lemma sameEdge_swap (x : NodeId × NodeId) (u v : NodeId) :
    sameEdge x (u, v) = sameEdge x (v, u) := by
  simp only [sameEdge]
  rw [decide_eq_decide]
  exact or_comm

/-- Unordered-pair identity is transitive. -/
lemma sameEdge_trans {a b c : NodeId × NodeId} (h1 : sameEdge a b = true)
    (h2 : sameEdge b c = true) : sameEdge a c = true := by
  rw [sameEdge_true_iff] at h1 h2 ⊢
  rcases h1 with ⟨x1, x2⟩ | ⟨x1, x2⟩ <;> rcases h2 with ⟨y1, y2⟩ | ⟨y1, y2⟩
  · exact Or.inl ⟨x1.trans y1, x2.trans y2⟩
  · exact Or.inr ⟨x1.trans y1, x2.trans y2⟩
  · exact Or.inr ⟨x1.trans y2, x2.trans y1⟩
  · exact Or.inl ⟨x1.trans y2, x2.trans y1⟩

/-- The predicate `hasEdge` is symmetric (the graph is undirected). -/
lemma hasEdge_symm {g : Graph} {u v : NodeId} (h : hasEdge g u v = true) :
    hasEdge g v u = true := by
  unfold hasEdge at h ⊢
  rw [List.any_eq_true] at h ⊢
  obtain ⟨e, he, hse⟩ := h
  exact ⟨e, he, by rw [sameEdge_swap]; exact hse⟩

/-- A member of the adjacency of `u` is joined to `u` by an edge. -/
lemma hasEdge_of_mem_neighbors {g : Graph} {u v : NodeId} {w : ℚ}
    (h : (v, w) ∈ neighborsWithCost g u) : hasEdge g u v = true := by
  unfold neighborsWithCost at h
  rw [List.mem_filterMap] at h
  obtain ⟨e, he, hfe⟩ := h
  unfold hasEdge
  rw [List.any_eq_true]
  refine ⟨e, he, ?_⟩
  rw [sameEdge_true_iff]
  by_cases h1 : e.1 = u
  · rw [if_pos h1] at hfe
    simp only [Option.some.injEq, Prod.mk.injEq] at hfe
    exact Or.inl ⟨h1, hfe.1⟩
  · rw [if_neg h1] at hfe
    by_cases h2 : e.2.1 = u
    · rw [if_pos h2] at hfe
      simp only [Option.some.injEq, Prod.mk.injEq] at hfe
      exact Or.inr ⟨hfe.1, h2⟩
    · rw [if_neg h2] at hfe
      cases hfe

/-- An edge surviving `removeEdgesFrom` matches none of the removed
pairs. -/
lemma hasEdge_removeEdgesFrom {g : Graph} {ps : List (NodeId × NodeId)} {u v : NodeId}
    (h : hasEdge (removeEdgesFrom g ps) u v = true) :
    ∀ pr ∈ ps, sameEdge pr (u, v) = false := by
  intro pr hpr
  unfold hasEdge removeEdgesFrom at h
  rw [List.any_eq_true] at h
  obtain ⟨e, he, hse⟩ := h
  rw [List.mem_filter] at he
  obtain ⟨_, hsurv⟩ := he
  rw [Bool.not_eq_true'] at hsurv
  rw [List.any_eq_false] at hsurv
  by_contra hcon
  rw [Bool.not_eq_false] at hcon
  have htr : sameEdge pr (e.1, e.2.1) = true :=
    sameEdge_trans hcon (by rw [sameEdge_symm]; exact hse)
  exact absurd htr (by simpa using hsurv pr hpr)

/-- The consecutive pairs of a `Chain'` are related. -/
lemma chain'_pair {R : NodeId → NodeId → Prop} :
    ∀ {l : List NodeId}, List.Chain' R l → ∀ pr ∈ l.zip l.tail, R pr.1 pr.2 := by
  intro l
  induction l with
  | nil => intro _ pr hpr; cases hpr
  | cons a l ih =>
    intro hch pr hpr
    cases l with
    | nil => cases hpr
    | cons b m =>
      rw [List.chain'_cons] at hch
      simp only [List.tail_cons, List.zip_cons_cons] at hpr
      rcases List.mem_cons.mp hpr with h | h
      · rw [h]; exact hch.1
      · exact ih hch.2 pr (by simpa [List.zip_cons_cons] using h)

/-- Adjacency relation induced by a graph. -/
def edgeRel (g : Graph) : NodeId → NodeId → Prop := fun a b => hasEdge g a b = true

/-- A chain along graph edges reversed is again a chain. -/
lemma chain'_reverse_of_symm {g : Graph} {l : List NodeId}
    (h : List.Chain' (edgeRel g) l) : List.Chain' (edgeRel g) l.reverse := by
  rw [List.chain'_reverse]
  exact h.imp (fun a b hab => hasEdge_symm hab)

/-- Membership through `pqInsert`. -/
lemma mem_pqInsert {x e : ℚ × List NodeId} :
    ∀ {l : List (ℚ × List NodeId)}, x ∈ pqInsert e l → x = e ∨ x ∈ l := by
  intro l
  induction l with
  | nil => intro h; left; simpa [pqInsert] using h
  | cons y ys ih =>
    intro h
    unfold pqInsert at h
    by_cases hc : y.1 ≤ e.1
    · rw [if_pos hc] at h
      rcases List.mem_cons.mp h with h' | h'
      · right; rw [h']; exact List.mem_cons_self y ys
      · rcases ih h' with h'' | h''
        · left; exact h''
        · right; exact List.mem_cons_of_mem y h''
    · rw [if_neg hc] at h
      rcases List.mem_cons.mp h with h' | h'
      · left; exact h'
      · right; exact h'

/-- Membership through a fold of `pqInsert`s. -/
lemma mem_foldl_pqInsert :
    ∀ (l : List (ℚ × List NodeId)) (f : List (ℚ × List NodeId)) (x : ℚ × List NodeId),
      x ∈ l.foldl (fun acc e => pqInsert e acc) f → x ∈ f ∨ x ∈ l := by
  intro l
  induction l with
  | nil => intro f x h; exact Or.inl h
  | cons e es ih =>
    intro f x h
    simp only [List.foldl_cons] at h
    rcases ih (pqInsert e f) x h with h' | h'
    · rcases mem_pqInsert h' with h'' | h''
      · right; rw [h'']; exact List.mem_cons_self e es
      · left; exact h''
    · right; exact List.mem_cons_of_mem e h'

/-- Every frontier entry of the Dijkstra loop is a nonempty reversed
path whose consecutive nodes are joined by graph edges; hence so is any
returned path. -/
lemma dijkstraLoop_chain (g : Graph) (tgt : NodeId) :
    ∀ (fuel : Nat) (visited : List NodeId) (frontier : List (ℚ × List NodeId)),
      (∀ cp ∈ frontier, cp.2 ≠ [] ∧ List.Chain' (edgeRel g) cp.2) →
      ∀ (p : List NodeId) (c : ℚ),
        dijkstraLoop g tgt fuel visited frontier = some (p, c) →
        List.Chain' (edgeRel g) p := by
  intro fuel
  induction fuel with
  | zero =>
    intro visited frontier _ p c h
    simp [dijkstraLoop] at h
  | succ n ih =>
    intro visited frontier hinv p c h
    cases frontier with
    | nil => simp [dijkstraLoop] at h
    | cons cp rest =>
      obtain ⟨c0, p0⟩ := cp
      obtain ⟨hne, hch⟩ := hinv (c0, p0) (List.mem_cons_self _ _)
      have htail : ∀ x ∈ rest, x.2 ≠ [] ∧ List.Chain' (edgeRel g) x.2 :=
        fun x hx => hinv x (List.mem_cons_of_mem _ hx)
      dsimp only [dijkstraLoop] at h
      split at h
      · exact ih visited rest htail p c h
      · split at h
        · simp only [Option.some.injEq, Prod.mk.injEq] at h
          obtain ⟨hp, _⟩ := h
          subst hp
          exact chain'_reverse_of_symm hch
        · refine ih _ _ ?_ p c h
          intro x hx
          rcases mem_foldl_pqInsert _ _ _ hx with hx' | hx'
          · exact htail x hx'
          · rw [List.mem_map] at hx'
            obtain ⟨vw, hvw, hxe⟩ := hx'
            obtain ⟨v, w⟩ := vw
            constructor
            · rw [← hxe]; simp
            · rw [← hxe]
              cases p0 with
              | nil => exact absurd rfl hne
              | cons a p0' =>
                rw [List.chain'_cons]
                exact ⟨hasEdge_symm (hasEdge_of_mem_neighbors hvw), hch⟩

/-- A path returned by `dijkstra` only walks edges of the graph it was
run on. -/
lemma dijkstra_chain {g : Graph} {src tgt : NodeId} {p : List NodeId} {c : ℚ}
    (h : dijkstra g src tgt = some (p, c)) : List.Chain' (edgeRel g) p := by
  unfold dijkstra at h
  split at h
  · refine dijkstraLoop_chain g tgt _ [] [(0, [src])] ?_ p c h
    intro cp hcp
    rw [List.mem_singleton] at hcp
    subst hcp
    exact ⟨by simp, List.chain'_singleton src⟩
  · cases h

/-- The backup path of an `mkRouteEntry` shares no undirected edge with
the primary path: it was computed on a copy of the database from which
every primary-path edge had been removed. -/
lemma mkRouteEntry_backup_disjoint (g : Graph) (s tgt : NodeId) (p : List NodeId) (pc : ℚ)
    (bp : List NodeId) (hbp : (mkRouteEntry g s tgt p pc).backup_path = some bp) :
    ∀ pe ∈ pathEdges p, ∀ be ∈ pathEdges bp, sameEdge pe be = false := by
  intro pe hpe be hbe
  have hb : ∃ d, dijkstra (removeEdgesFrom g (pathEdges p)) s tgt = some (bp, d) := by
    dsimp only [mkRouteEntry] at hbp
    cases hd : dijkstra (removeEdgesFrom g (pathEdges p)) s tgt with
    | none => rw [hd] at hbp; cases hbp
    | some pr =>
      obtain ⟨q, d⟩ := pr
      rw [hd] at hbp
      simp only [Option.map_some', Option.some.injEq] at hbp
      subst hbp
      exact ⟨d, rfl⟩
  obtain ⟨d, hd⟩ := hb
  have hch := dijkstra_chain hd
  have hedge : hasEdge (removeEdgesFrom g (pathEdges p)) be.1 be.2 = true :=
    chain'_pair hch be hbe
  have hall := hasEdge_removeEdgesFrom hedge pe hpe
  simpa using hall

/-- C4: whenever a `compute_table` entry has a backup path, that backup
shares no undirected edge with the entry's primary path. -/
theorem claimC4 (g : Graph) (s d : NodeId) (e : RouteEntry)
    (h : (d, e) ∈ compute_table g s) (bp : List NodeId)
    (hbp : e.backup_path = some bp) :
    (pathEdges e.path).all
      (fun pe => (pathEdges bp).all (fun be => !(sameEdge pe be))) = true := by
  obtain ⟨p, pc, hd, he⟩ := compute_table_mem h
  subst he
  have hdisj := mkRouteEntry_backup_disjoint g s d p pc bp hbp
  rw [List.all_eq_true]
  intro pe hpe
  rw [List.all_eq_true]
  intro be hbe
  have := hdisj pe hpe be hbe
  simp [this]

/-- Witness for C4: on the square topology, `R0`'s entry for `R2` has
primary `[R0,R1,R2]` and backup `[R0,R3,R2]`, and they share no edge. -/
theorem claimC4_witness :
    (("R2", squareEntryR2) ∈ compute_table squareTopology "R0") ∧
    squareEntryR2.backup_path = some ["R0", "R3", "R2"] ∧
    (pathEdges squareEntryR2.path).all
      (fun pe => (pathEdges ["R0", "R3", "R2"]).all (fun be => !(sameEdge pe be))) = true :=
  ⟨by decide, by decide,
    claimC4 squareTopology "R0" "R2" squareEntryR2 (by decide) ["R0", "R3", "R2"] (by decide)⟩

/-- Holds when some stored edge of `es` is the undirected edge
`u–v` (the edge-list form of `hasEdge`). -/
def edgesAny (es : List Edge) (u v : NodeId) : Bool :=
  es.any (fun e => sameEdge (e.1, e.2.1) (u, v))

/-- The operation `ensureNode` never touches the edge list. -/
lemma ensureNode_edges (g : Graph) (u : NodeId) : (ensureNode g u).edges = g.edges := by
  unfold ensureNode; split <;> rfl

/-- The operation `add_node` never touches the edge list. -/
lemma addNodeSeq_edges (g : Graph) (u : NodeId) (s : Nat) :
    (addNodeSeq g u s).edges = g.edges := by
  unfold addNodeSeq; split <;> rfl

/-- When the undirected edge is absent, `add_edge` appends it. -/
lemma addEdge_edges_of_not_hasEdge {g : Graph} {u v : NodeId} {c : ℚ}
    (h : hasEdge g u v = false) :
    (addEdge g u v c).edges = g.edges ++ [(u, v, c)] := by
  dsimp only [addEdge]
  have h1 : hasEdge (ensureNode (ensureNode g u) v) u v = false := by
    show edgesAny (ensureNode (ensureNode g u) v).edges u v = false
    rw [ensureNode_edges, ensureNode_edges]
    exact h
  rw [h1]
  simp [ensureNode_edges]

/-- Every pair produced by `graph.edges(sid)` starts with `sid`. -/
lemma edgesFrom_fst {g : Graph} {sid : NodeId} {pr : NodeId × NodeId}
    (h : pr ∈ edgesFrom g sid) : pr.1 = sid := by
  unfold edgesFrom at h
  rw [List.mem_filterMap] at h
  obtain ⟨e, _, hfe⟩ := h
  by_cases h1 : e.1 = sid
  · rw [if_pos h1] at hfe
    simp only [Option.some.injEq] at hfe
    rw [← hfe]
  · rw [if_neg h1] at hfe
    by_cases h2 : e.2.1 = sid
    · rw [if_pos h2] at hfe
      simp only [Option.some.injEq] at hfe
      rw [← hfe]
    · rw [if_neg h2] at hfe
      cases hfe

/-- Removing `list(graph.edges(sid))` removes exactly the edges incident
to `sid`. -/
lemma removeEdgesFrom_edgesFrom (g : Graph) (sid : NodeId) :
    (removeEdgesFrom g (edgesFrom g sid)).edges
      = g.edges.filter (fun e => !(decide (e.1 = sid ∨ e.2.1 = sid))) := by
  show g.edges.filter _ = g.edges.filter _
  apply List.filter_congr
  intro e he
  congr 1
  by_cases hc : e.1 = sid ∨ e.2.1 = sid
  · rw [decide_eq_true hc]
    rw [List.any_eq_true]
    by_cases h1 : e.1 = sid
    · refine ⟨(sid, e.2.1), ?_, ?_⟩
      · unfold edgesFrom
        rw [List.mem_filterMap]
        exact ⟨e, he, by rw [if_pos h1]⟩
      · rw [sameEdge_true_iff]
        exact Or.inl ⟨h1.symm, rfl⟩
    · have h2 : e.2.1 = sid := by
        rcases hc with hc1 | hc2
        · exact absurd hc1 h1
        · exact hc2
      refine ⟨(sid, e.1), ?_, ?_⟩
      · unfold edgesFrom
        rw [List.mem_filterMap]
        exact ⟨e, he, by rw [if_neg h1, if_pos h2]⟩
      · rw [sameEdge_true_iff]
        exact Or.inr ⟨h2.symm, rfl⟩
  · rw [decide_eq_false hc]
    rw [List.any_eq_false]
    intro pr hpr
    have hfst := edgesFrom_fst hpr
    intro hcon
    rw [sameEdge_true_iff] at hcon
    rcases hcon with ⟨ha, _⟩ | ⟨ha, _⟩
    · have ha' : pr.1 = e.1 := ha
      exact hc (Or.inl (by rw [← ha', hfst]))
    · have ha' : pr.1 = e.2.1 := ha
      exact hc (Or.inr (by rw [← ha', hfst]))

/-- After the incident edges of `sid` have been filtered out, no
undirected edge at `sid` remains. -/
lemma edgesAny_filter_nonincident (g : Graph) (sid x : NodeId) :
    edgesAny (g.edges.filter (fun e => !(decide (e.1 = sid ∨ e.2.1 = sid)))) sid x = false := by
  unfold edgesAny
  rw [List.any_eq_false]
  intro e he
  rw [List.mem_filter] at he
  obtain ⟨_, hp⟩ := he
  rw [Bool.not_eq_true'] at hp
  intro hcon
  rw [sameEdge_true_iff] at hcon
  have hor : e.1 = sid ∨ e.2.1 = sid := by
    rcases hcon with ⟨h1, _⟩ | ⟨_, h2⟩
    · exact Or.inl h1
    · exact Or.inr h2
  exact absurd hor (of_decide_eq_false hp)

/-- Folding `add_edge` over a duplicate-free link set none of whose keys
is already joined to `sid` appends exactly the advertised edges, in
order. -/
lemma foldl_addEdge_edges (sid : NodeId) :
    ∀ (links : List (NodeId × ℚ)) (g : Graph),
      (links.map Prod.fst).Nodup →
      (∀ nc ∈ links, hasEdge g sid nc.1 = false) →
      (links.foldl (fun gg nc => addEdge gg sid nc.1 nc.2) g).edges
        = g.edges ++ links.map (fun nc => (sid, nc.1, nc.2)) := by
  intro links
  induction links with
  | nil => intro g _ _; simp
  | cons nc rest ih =>
    intro g hnd hfresh
    simp only [List.foldl_cons]
    have h0 : hasEdge g sid nc.1 = false := hfresh nc (List.mem_cons_self _ _)
    have hstep : (addEdge g sid nc.1 nc.2).edges = g.edges ++ [(sid, nc.1, nc.2)] :=
      addEdge_edges_of_not_hasEdge h0
    have hnd0 : nc.1 ∉ rest.map Prod.fst := by
      simp only [List.map_cons, List.nodup_cons] at hnd
      exact hnd.1
    have hnd' : (rest.map Prod.fst).Nodup := by
      simp only [List.map_cons, List.nodup_cons] at hnd
      exact hnd.2
    have hfresh' : ∀ nc' ∈ rest, hasEdge (addEdge g sid nc.1 nc.2) sid nc'.1 = false := by
      intro nc' hnc'
      have hbase : hasEdge g sid nc'.1 = false := hfresh nc' (List.mem_cons_of_mem _ hnc')
      show edgesAny (addEdge g sid nc.1 nc.2).edges sid nc'.1 = false
      rw [hstep]
      unfold edgesAny
      have hkey : nc.1 ≠ nc'.1 := by
        intro hk
        exact hnd0 (hk ▸ List.mem_map_of_mem Prod.fst hnc')
      have hnew : [(sid, nc.1, nc.2)].any
          (fun e => sameEdge (e.1, e.2.1) (sid, nc'.1)) = false := by
        simp only [List.any_cons, List.any_nil, Bool.or_false]
        by_contra hcon
        rw [Bool.not_eq_false, sameEdge_true_iff] at hcon
        rcases hcon with ⟨_, hk⟩ | ⟨hs, hk⟩
        · exact hkey hk
        · exact hkey (hk.trans hs)
      have hbase' : g.edges.any (fun e => sameEdge (e.1, e.2.1) (sid, nc'.1)) = false := hbase
      simp only [List.any_append, hbase', hnew, Bool.or_false]
    rw [ih (addEdge g sid nc.1 nc.2) hnd' hfresh', hstep, List.append_assoc]
    simp

/-- The topology `process_lsu` installs on acceptance: the source node
upserted, its incident edges removed, the advertised edges inserted. -/
lemma process_lsu_accepted_topology {keys : NodeId → String} {r : Router} {lsu : LSU} {t : ℚ}
    (h : (process_lsu keys r lsu t).1 = Outcome.accepted) :
    (process_lsu keys r lsu t).2.topology
      = lsu.data.links.foldl (fun g nc => addEdge g lsu.data.source_id nc.1 nc.2)
          (removeEdgesFrom (addNodeSeq r.topology lsu.data.source_id lsu.data.sequence_number)
            (edgesFrom (addNodeSeq r.topology lsu.data.source_id lsu.data.sequence_number)
              lsu.data.source_id)) := by
  dsimp only [process_lsu] at h ⊢
  by_cases h1 : r.lsu_rate_limit ≤
      (r.lsu_timestamps.filter (fun x => decide (qsub t x ≤ r.lsu_window))).length
  · rw [if_pos h1] at h
    simp at h
  · rw [if_neg h1] at h ⊢
    by_cases h2 : verify_signature keys lsu.data lsu.signature lsu.data.source_id = false
    · rw [if_pos h2] at h
      simp at h
    · rw [if_neg h2] at h ⊢
      by_cases h3 : hasNode r.topology lsu.data.source_id = true ∧
          lsu.data.sequence_number ≤ nodeSeq r.topology lsu.data.source_id
      · rw [if_pos h3] at h
        simp at h
      · rw [if_neg h3] at h ⊢

/-- C1 (amended): after a `receive()` that returns `Accepted` for an
advertisement from `A` with duplicate-free link keys, the edges incident
to `A` are exactly the advertisement's link set, and every edge *not*
incident to `A` is untouched.  The original claim's further assertion —
that the edges attributed to *other* sources are left intact — fails,
because an edge `T–A` attributed to `T` is incident to `A` and is
removed when `A`'s advertisement does not re-list it (see the
counterexample). -/
theorem claimC1 (keys : NodeId → String) (r : Router) (lsu : LSU) (t : ℚ)
    (hacc : (process_lsu keys r lsu t).1 = Outcome.accepted)
    (hnd : (lsu.data.links.map Prod.fst).Nodup) :
    (process_lsu keys r lsu t).2.topology.edges.filter
        (fun e => decide (e.1 = lsu.data.source_id ∨ e.2.1 = lsu.data.source_id))
      = lsu.data.links.map (fun nc => (lsu.data.source_id, nc.1, nc.2)) ∧
    (process_lsu keys r lsu t).2.topology.edges.filter
        (fun e => !(decide (e.1 = lsu.data.source_id ∨ e.2.1 = lsu.data.source_id)))
      = r.topology.edges.filter
          (fun e => !(decide (e.1 = lsu.data.source_id ∨ e.2.1 = lsu.data.source_id))) := by
  rw [process_lsu_accepted_topology hacc]
  set sid := lsu.data.source_id with hsid
  set g1 := addNodeSeq r.topology sid lsu.data.sequence_number with hg1
  have hrem : (removeEdgesFrom g1 (edgesFrom g1 sid)).edges
      = g1.edges.filter (fun e => !(decide (e.1 = sid ∨ e.2.1 = sid))) :=
    removeEdgesFrom_edgesFrom g1 sid
  have hfresh : ∀ nc ∈ lsu.data.links,
      hasEdge (removeEdgesFrom g1 (edgesFrom g1 sid)) sid nc.1 = false := by
    intro nc _
    show edgesAny (removeEdgesFrom g1 (edgesFrom g1 sid)).edges sid nc.1 = false
    rw [hrem]
    exact edgesAny_filter_nonincident g1 sid nc.1
  have hfold := foldl_addEdge_edges sid lsu.data.links
    (removeEdgesFrom g1 (edgesFrom g1 sid)) hnd hfresh
  rw [hfold, hrem, addNodeSeq_edges]
  constructor
  · rw [List.filter_append]
    have hl : (r.topology.edges.filter
          (fun e => !(decide (e.1 = sid ∨ e.2.1 = sid)))).filter
          (fun e => decide (e.1 = sid ∨ e.2.1 = sid)) = [] := by
      rw [List.filter_eq_nil_iff]
      intro e he
      rw [List.mem_filter] at he
      obtain ⟨_, hni⟩ := he
      rw [Bool.not_eq_true'] at hni
      intro hcon
      rw [hni] at hcon
      cases hcon
    have hr : (lsu.data.links.map (fun nc => (sid, nc.1, nc.2))).filter
        (fun e => decide (e.1 = sid ∨ e.2.1 = sid))
        = lsu.data.links.map (fun nc => (sid, nc.1, nc.2)) := by
      rw [List.filter_eq_self]
      intro e he
      rw [List.mem_map] at he
      obtain ⟨nc, _, hne⟩ := he
      rw [← hne]
      simp
    rw [hl, hr, List.nil_append]
  · rw [List.filter_append]
    have hl : (r.topology.edges.filter
          (fun e => !(decide (e.1 = sid ∨ e.2.1 = sid)))).filter
          (fun e => !(decide (e.1 = sid ∨ e.2.1 = sid)))
        = r.topology.edges.filter (fun e => !(decide (e.1 = sid ∨ e.2.1 = sid))) := by
      rw [List.filter_eq_self]
      intro e he
      rw [List.mem_filter] at he
      exact he.2
    have hr : (lsu.data.links.map (fun nc => (sid, nc.1, nc.2))).filter
        (fun e => !(decide (e.1 = sid ∨ e.2.1 = sid))) = [] := by
      rw [List.filter_eq_nil_iff]
      intro e he
      rw [List.mem_map] at he
      obtain ⟨nc, _, hne⟩ := he
      rw [← hne]
      simp
    rw [hl, hr, List.append_nil]

/-- Witness for C1 (amended): `R0` accepts `R1`'s advertisement; the
edges incident to `R1` are exactly the advertised `{R0: 1, R2: 1}`, and
the (empty) set of other edges is untouched. -/
theorem claimC1_witness :
    (process_lsu demoKeys (Router.init "R0") lsuR1 0).1 = Outcome.accepted ∧
    (lsuR1.data.links.map Prod.fst).Nodup ∧
    ((process_lsu demoKeys (Router.init "R0") lsuR1 0).2.topology.edges.filter
        (fun e => decide (e.1 = lsuR1.data.source_id ∨ e.2.1 = lsuR1.data.source_id))
      = lsuR1.data.links.map (fun nc => (lsuR1.data.source_id, nc.1, nc.2)) ∧
      (process_lsu demoKeys (Router.init "R0") lsuR1 0).2.topology.edges.filter
        (fun e => !(decide (e.1 = lsuR1.data.source_id ∨ e.2.1 = lsuR1.data.source_id)))
      = (Router.init "R0").topology.edges.filter
          (fun e => !(decide (e.1 = lsuR1.data.source_id ∨ e.2.1 = lsuR1.data.source_id)))) :=
  ⟨by decide, by decide,
    claimC1 demoKeys (Router.init "R0") lsuR1 0 (by decide) (by decide)⟩

end OSDRP
